import Mathlib

/-!
Verification development for the experiment-files reporting tool
(`src/main.js`).  The JavaScript program is shallowly embedded:

* JSON-like runtime values become the inductive type `JsValue`;
* JavaScript property access `x[p]` becomes `jsGet`, which returns
  `Except Unit JsValue` — `.error ()` models the `TypeError` thrown when
  reading a property of `undefined` or `null`, and `.ok .vUndefined`
  models a missing property;
* the dotted-path resolver `getObjectFieldValue`, the file/field tally
  loop of `filePropCountPromise`, the search-request construction of
  `cartQuery`, and the authorization-string builder `keypairToAuth` are
  translated function by function, keeping the source's names.

JavaScript objects are modelled as finite association lists of own
properties; prototype-chain lookups are outside the model.  JavaScript
numbers are modelled as integers (`Int`), which covers every number the
program manipulates (lengths and counters).
-/

/-- A JavaScript runtime value, restricted to the JSON-like fragment the
program manipulates. -/
inductive JsValue where
  | vUndefined : JsValue
  | vNull : JsValue
  | vBool (b : Bool) : JsValue
  | vNum (n : Int) : JsValue
  | vStr (s : String) : JsValue
  | vArr (elems : List JsValue) : JsValue
  | vObj (props : List (String × JsValue)) : JsValue

/-- Own-property lookup on an object's property list: the value of the
first binding of `name`, or `undefined` when there is none. -/
def lookupProp : List (String × JsValue) → String → JsValue
  | [], _ => JsValue.vUndefined
  | (k, v) :: rest, name => if k = name then v else lookupProp rest name

/-- JavaScript property read `x[name]` (also `x.name`).  Reading a
property of `undefined` or `null` throws a `TypeError`, modelled as
`.error ()`.  Arrays expose `length` and their elements under canonical
decimal indices; strings expose `length`; any other read on a primitive
yields `undefined`. -/
def jsGet : JsValue → String → Except Unit JsValue
  | JsValue.vUndefined, _ => Except.error ()
  | JsValue.vNull, _ => Except.error ()
  | JsValue.vObj props, name => Except.ok (lookupProp props name)
  | JsValue.vArr elems, name =>
      if name = "length" then Except.ok (JsValue.vNum elems.length)
      else
        match name.toNat? with
        | some i =>
            if h : toString i = name ∧ i < elems.length then
              Except.ok (elems.get ⟨i, h.2⟩)
            else Except.ok JsValue.vUndefined
        | none => Except.ok JsValue.vUndefined
  | JsValue.vStr s, name =>
      if name = "length" then Except.ok (JsValue.vNum s.length)
      else Except.ok JsValue.vUndefined
  | _, _ => Except.ok JsValue.vUndefined

/-- JavaScript truthiness: `undefined`, `null`, `false`, `0` and `""`
are falsy; every other value (including empty arrays and objects) is
truthy. -/
def truthy : JsValue → Bool
  | JsValue.vUndefined => false
  | JsValue.vNull => false
  | JsValue.vBool b => b
  | JsValue.vNum n => decide (n ≠ 0)
  | JsValue.vStr s => decide (s ≠ "")
  | JsValue.vArr _ => true
  | JsValue.vObj _ => true

mutual
/-- JavaScript `ToString` on the modelled values: booleans print as
`true`/`false`, numbers in decimal, `null`/`undefined` by name, plain
objects as `[object Object]`, and arrays as their elements joined by
commas (with `null`/`undefined` elements printing as empty). -/
def jsToString : JsValue → String
  | JsValue.vUndefined => "undefined"
  | JsValue.vNull => "null"
  | JsValue.vBool b => if b then "true" else "false"
  | JsValue.vNum n => toString n
  | JsValue.vStr s => s
  | JsValue.vObj _ => "[object Object]"
  | JsValue.vArr elems => jsArrayJoin elems

/-- The comma join performed by `Array.prototype.toString`, in which
`null` and `undefined` elements render as empty strings. -/
def jsArrayJoin : List JsValue → String
  | [] => ""
  | [JsValue.vUndefined] => ""
  | [JsValue.vNull] => ""
  | [e] => jsToString e
  | JsValue.vUndefined :: rest => "," ++ jsArrayJoin rest
  | JsValue.vNull :: rest => "," ++ jsArrayJoin rest
  | e :: rest => jsToString e ++ "," ++ jsArrayJoin rest
end

/-- Splitting on a dot character, as `field.split('.')` does in
JavaScript for the one-character separator `'.'`: `splitAux l acc`
scans `l` with `acc` holding the (reversed) current segment. -/
def splitAux : List Char → List Char → List (List Char)
  | [], acc => [acc.reverse]
  | c :: rest, acc =>
      if c = '.' then acc.reverse :: splitAux rest []
      else splitAux rest (c :: acc)

/-- The JavaScript expression `field.split('.')`. -/
def jsSplitDot (s : String) : List String :=
  (splitAux s.data []).map (fun cs => String.mk cs)

/-- The JavaScript expression
`parts.reduce((partObject, part) => partObject[part], object)`:
descend one property per segment, propagating a thrown `TypeError`. -/
def dottedReduce : JsValue → List String → Except Unit JsValue
  | partObject, [] => Except.ok partObject
  | partObject, part :: rest =>
      match jsGet partObject part with
      | Except.error e => Except.error e
      | Except.ok next => dottedReduce next rest

/-- `getObjectFieldValue` from `src/main.js` (lines 31–37): split the
dotted field, use a direct property lookup for a single segment, and
otherwise reduce over the segments. -/
def getObjectFieldValue (object : JsValue) (field : String) : Except Unit JsValue :=
  let parts := jsSplitDot field
  if parts.length = 1 then jsGet object field
  else dottedReduce object parts

/-- The general segment-by-segment descent of `getObjectFieldValue`
(line 36 of `src/main.js`) applied unconditionally, without the
single-segment fast path of lines 33–35. -/
def getObjectFieldValueGeneral (object : JsValue) (field : String) : Except Unit JsValue :=
  dottedReduce object (jsSplitDot field)

/-! ## The tally table

The mutable nested object `filePropCounts` of `src/main.js`
(lines 150–172) is modelled as an association list in insertion order:
outer keys are field paths, inner keys are stringified field values,
and the stored numbers are the occurrence counts. -/

/-- One field's value-to-count table. -/
abbrev ValueCounts := List (String × Nat)

/-- The whole tally table: field path to value counts. -/
abbrev Tally := List (String × ValueCounts)

/-- Reading `counts[w]` from a value table: the first binding, or 0 for
a missing value (JavaScript would read `undefined`, which is falsy, and
the code only ever stores counts that are at least 1). -/
def lookupCount : ValueCounts → String → Nat
  | [], _ => 0
  | (v, c) :: rest, w => if v = w then c else lookupCount rest w

/-- Sum of all counts stored in one field's value table. -/
def sumCounts : ValueCounts → Nat
  | [] => 0
  | (_, c) :: rest => c + sumCounts rest

/-- Reading `filePropCounts[g]`: the first binding, or the empty table
for a missing field. -/
def lookupField : Tally → String → ValueCounts
  | [], _ => []
  | (f, vals) :: rest, g => if f = g then vals else lookupField rest g

/-- Whether a field path appears as an outer key of the tally table. -/
def hasField : Tally → String → Bool
  | [], _ => false
  | (f, _) :: rest, g => if f = g then true else hasField rest g

/-- The count recorded for value `v` of field `f` (0 when absent). -/
def tallyCount (t : Tally) (f v : String) : Nat :=
  lookupCount (lookupField t f) v

/-- The sum of the counts recorded for field `f` across all its values
(0 when the field is absent from the table). -/
def fieldTotal (t : Tally) (f : String) : Nat :=
  sumCounts (lookupField t f)

/-- Lines 157–163 of `src/main.js`: inside an existing field's table,
increment the entry for `value` if present, otherwise create it with
count 1 (appended in insertion order, as a new JavaScript object key
would be). -/
def bumpValue : ValueCounts → String → ValueCounts
  | [], value => [(value, 1)]
  | (v, c) :: rest, value =>
      if v = value then (v, c + 1) :: rest
      else (v, c) :: bumpValue rest value

/-- Lines 155–168 of `src/main.js`: update the tally for one observed
`(field, value)` pair — increment inside the field's table when the
field is already present, otherwise create the field with the single
entry `value ↦ 1`. -/
def bumpField : Tally → String → String → Tally
  | [], field, value => [(field, [(value, 1)])]
  | (f, vals) :: rest, field, value =>
      if f = field then (f, bumpValue vals value) :: rest
      else (f, vals) :: bumpField rest field value

/-- Lines 153–169 of `src/main.js`, the body of the inner
`fileFields.forEach`: resolve the field on the file, and when the value
is truthy record its string form in the tally.  A `TypeError` thrown by
`getObjectFieldValue` propagates. -/
def tallyFileField (counts : Tally) (file : JsValue) (field : String) :
    Except Unit Tally :=
  match getObjectFieldValue file field with
  | Except.error e => Except.error e
  | Except.ok fieldValue =>
      if truthy fieldValue then
        Except.ok (bumpField counts field (jsToString fieldValue))
      else Except.ok counts

/-- The inner `fileFields.forEach(...)` loop of lines 152–170, with the
mutable `filePropCounts` threaded explicitly. -/
def tallyFile (file : JsValue) : Tally → List String → Except Unit Tally
  | counts, [] => Except.ok counts
  | counts, field :: rest =>
      match tallyFileField counts file field with
      | Except.error e => Except.error e
      | Except.ok counts2 => tallyFile file counts2 rest

/-- The outer `files.forEach(...)` loop of lines 151–171. -/
def tallyFiles (fileFields : List String) : Tally → List JsValue → Except Unit Tally
  | counts, [] => Except.ok counts
  | counts, file :: rest =>
      match tallyFile file counts fileFields with
      | Except.error e => Except.error e
      | Except.ok counts2 => tallyFiles fileFields counts2 rest

/-- The tally engine of `filePropCountPromise` (lines 150–172): start
from the empty object `{}` and process every file against every
requested field. -/
def filePropCounts (files : List JsValue) (fileFields : List String) :
    Except Unit Tally :=
  tallyFiles fileFields [] files

/-- Whether resolving `field` on `file` succeeds (does not throw). -/
def resolvesOk (file : JsValue) (field : String) : Bool :=
  match getObjectFieldValue file field with
  | Except.ok _ => true
  | Except.error _ => false

/-- Whether `field` resolves on `file` to a truthy value. -/
def truthyResolve (file : JsValue) (field : String) : Bool :=
  match getObjectFieldValue file field with
  | Except.ok u => truthy u
  | Except.error _ => false

/-- Whether `field` resolves on `file` to a truthy value whose string
coercion is exactly `v`. -/
def fileContributes (file : JsValue) (field v : String) : Bool :=
  match getObjectFieldValue file field with
  | Except.ok u => truthy u && (jsToString u == v)
  | Except.error _ => false

/-- Number of occurrences of `f` in a list of field paths. -/
def countOcc (f : String) : List String → Nat
  | [] => 0
  | g :: rest => (if g = f then 1 else 0) + countOcc f rest

/-- Number of files on which `field` resolves to a truthy value whose
string form is `value`. -/
def countResolved (field value : String) : List JsValue → Nat
  | [] => 0
  | file :: rest =>
      (if fileContributes file field value then 1 else 0) + countResolved field value rest

/-- Number of files on which `field` resolves to a truthy value. -/
def countTruthyFiles (field : String) : List JsValue → Nat
  | [] => 0
  | file :: rest =>
      (if truthyResolve file field then 1 else 0) + countTruthyFiles field rest

/-! ## The file-collection stage and the search-client boundary -/

/-- The JavaScript comparison `x > 0` as it is applied to
`experiment.files.length`: numbers compare numerically, `true` converts
to 1, numeric strings convert to their number, and everything else
(including `undefined`, whose conversion is `NaN`) compares false. -/
def jsGtZero : JsValue → Bool
  | JsValue.vNum n => decide (0 < n)
  | JsValue.vBool b => b
  | JsValue.vStr s =>
      match s.toInt? with
      | some n => decide (0 < n)
      | none => false
  | _ => false

/-- The spread `...experiment.files` of line 145: arrays spread to
their elements, strings to their characters, and any other value
throws a `TypeError` (not iterable). -/
def jsSpread : JsValue → Except Unit (List JsValue)
  | JsValue.vArr elems => Except.ok elems
  | JsValue.vStr s => Except.ok (s.data.map (fun c => JsValue.vStr (String.mk [c])))
  | _ => Except.error ()

/-- The body of the `cartData['@graph'].forEach(...)` loop of lines
143–147: for each experiment, when `experiment.files` is truthy and its
`length` compares greater than 0, push the spread files. -/
def collectFilesLoop : List JsValue → List JsValue → Except Unit (List JsValue)
  | files, [] => Except.ok files
  | files, experiment :: rest =>
      match jsGet experiment "files" with
      | Except.error e => Except.error e
      | Except.ok efiles =>
          if truthy efiles then
            match jsGet efiles "length" with
            | Except.error e => Except.error e
            | Except.ok lenVal =>
                if jsGtZero lenVal then
                  match jsSpread efiles with
                  | Except.error e => Except.error e
                  | Except.ok extra => collectFilesLoop (files ++ extra) rest
                else collectFilesLoop files rest
          else collectFilesLoop files rest

/-- Lines 142–147 of `src/main.js`: read `cartData['@graph']` (throwing
a `TypeError` when `cartData` is `undefined`), then flatten the file
lists of all experiments; calling `.forEach` on a non-array `@graph`
value also throws. -/
def collectFiles (cartData : JsValue) : Except Unit (List JsValue) :=
  match jsGet cartData "@graph" with
  | Except.error e => Except.error e
  | Except.ok (JsValue.vArr experiments) => collectFilesLoop [] experiments
  | Except.ok _ => Except.error ()

/-- The whole callback of `filePropCountPromise` (lines 140–172):
collect the files from the search result, then run the tally engine. -/
def filePropCountStage (cartData : JsValue) (fileFields : List String) :
    Except Unit Tally :=
  match collectFiles cartData with
  | Except.error e => Except.error e
  | Except.ok files => filePropCounts files fileFields

/-- Outcome of the `fetch` call in `cartQuery`: an HTTP response that
is `ok` with a JSON body, a non-OK HTTP response, or a transport
failure (a rejected fetch promise). -/
inductive FetchOutcome where
  | ok (body : JsValue) : FetchOutcome
  | httpError : FetchOutcome
  | transportError : FetchOutcome

/-- Lines 63–72 of `src/main.js`: on `response.ok` the parsed JSON body
is returned; otherwise `throw new Error('not ok')` — and any transport
error — lands in the `.catch`, which only logs, so the promise resolves
to `undefined` (modelled as `none`). -/
def cartQueryResult : FetchOutcome → Option JsValue
  | FetchOutcome.ok body => some body
  | FetchOutcome.httpError => none
  | FetchOutcome.transportError => none

/-- The value the downstream `.then` callback receives: the resolved
body, or the JavaScript value `undefined` when the promise resolved
with no value. -/
def cartDataOf : Option JsValue → JsValue
  | some v => v
  | none => JsValue.vUndefined

/-! ## The search request built by `cartQuery` -/

/-- The template `field=files.${field}` of line 51. -/
def fieldQueryPart (field : String) : String :=
  "field=files." ++ field

/-- The JavaScript `Array.prototype.join('&')` of line 51. -/
def joinAmp : List String → String
  | [] => ""
  | [s] => s
  | s :: rest => s ++ "&" ++ joinAmp rest

/-- Line 51 of `src/main.js`:
`fields.map(field => 'field=files.' + field).join('&')`. -/
def cartQueryFieldQuery (fields : List String) : String :=
  joinAmp (fields.map fieldQueryPart)

/-- Line 52 of `src/main.js`: the search URL template. -/
def cartQueryUrl (host : String) (fields : List String) : String :=
  host ++ "/search_elements/type=Experiment&" ++ cartQueryFieldQuery fields ++
    "&field=files.restricted&limit=all&filterresponse=off"

/-- Uppercase hexadecimal digit, used by `encodeURIComponent`. -/
def hexDigitChar (n : Nat) : Char :=
  if n < 10 then Char.ofNat (48 + n) else Char.ofNat (55 + n)

/-- Lowercase hexadecimal digit, used by `JSON.stringify` escapes. -/
def hexDigitCharLower (n : Nat) : Char :=
  if n < 10 then Char.ofNat (48 + n) else Char.ofNat (87 + n)

/-- The escaping `JSON.stringify` applies inside a string literal:
quote, backslash and the named control escapes, with remaining control
characters as `\u00XX`. -/
def jsonEscapeChar (c : Char) : String :=
  if c = '"' then "\\\""
  else if c = '\\' then "\\\\"
  else if c = Char.ofNat 10 then "\\n"
  else if c = Char.ofNat 13 then "\\r"
  else if c = Char.ofNat 9 then "\\t"
  else if c = Char.ofNat 8 then "\\b"
  else if c = Char.ofNat 12 then "\\f"
  else if c.toNat < 32 then
    "\\u00" ++ String.mk [hexDigitCharLower (c.toNat / 16), hexDigitCharLower (c.toNat % 16)]
  else String.mk [c]

/-- `JSON.stringify` of a string. -/
def jsonStringOfString (s : String) : String :=
  "\"" ++ String.join (s.data.map jsonEscapeChar) ++ "\""

/-- The JavaScript `Array.prototype.join(',')`. -/
def joinComma : List String → String
  | [] => ""
  | [s] => s
  | s :: rest => s ++ "," ++ joinComma rest

/-- Lines 60–62 of `src/main.js`:
`JSON.stringify({'@id': experiments})` for the experiment `@id` list. -/
def cartQueryBody (experiments : List String) : String :=
  "\x7b\"@id\":[" ++ joinComma (experiments.map jsonStringOfString) ++ "]\x7d"

/-- The observable parts of the `fetch` call issued by `cartQuery`. -/
structure FetchRequest where
  url : String
  method : String
  accept : String
  contentType : String
  authorization : String
  body : String
deriving DecidableEq

/-- Lines 50–62 of `src/main.js`: the POST request `cartQuery` issues,
with its URL, headers and serialized body. -/
def cartQueryRequest (experiments fields : List String) (host auth : String) :
    FetchRequest :=
  { url := cartQueryUrl host fields
    method := "POST"
    accept := "application/json"
    contentType := "application/json"
    authorization := auth
    body := cartQueryBody experiments }

/-- The field query parameters exactly as the specification writes the
URL: one `&field=files.<f>` per requested field, in order. -/
def specFieldParams : List String → String
  | [] => ""
  | f :: rest => "&field=files." ++ f ++ specFieldParams rest

/-- The search URL as the specification writes it:
`{server}/search_elements/type=Experiment&field=files.<f1>&...&field=files.<fn>&field=files.restricted&limit=all&filterresponse=off`. -/
def specSearchUrl (host : String) (fields : List String) : String :=
  host ++ "/search_elements/type=Experiment" ++ specFieldParams fields ++
    "&field=files.restricted&limit=all&filterresponse=off"

/-! ## The authorization string built by `keypairToAuth`

Line 18 of `src/main.js` is
`Basic ${Buffer.from(unescape(encodeURIComponent(key + ':' + secret))).toString('base64')}`.
Each runtime facility is modelled: `encodeURIComponent` (UTF-8 encode,
then percent-escape everything outside the unreserved set),
`unescape` (decode `%XX` / `%uXXXX` sequences to single characters),
`Buffer.from(string)` with its default UTF-8 encoding, and base64. -/

/-- The UTF-8 byte sequence of a Unicode scalar value. -/
def utf8BytesOfCode (n : Nat) : List Nat :=
  if n < 128 then [n]
  else if n < 2048 then [192 + n / 64, 128 + n % 64]
  else if n < 65536 then [224 + n / 4096, 128 + (n / 64) % 64, 128 + n % 64]
  else [240 + n / 262144, 128 + (n / 4096) % 64, 128 + (n / 64) % 64, 128 + n % 64]

/-- Characters `encodeURIComponent` leaves unescaped:
`A–Z a–z 0–9 - _ . ! ~ * ' ( )`. -/
def percentUnreserved (c : Char) : Bool :=
  (65 ≤ c.toNat && c.toNat ≤ 90) || (97 ≤ c.toNat && c.toNat ≤ 122) ||
  (48 ≤ c.toNat && c.toNat ≤ 57) ||
  (c == '-') || (c == '_') || (c == '.') || (c == '!') || (c == '~') ||
  (c == '*') || (c == Char.ofNat 39) || (c == '(') || (c == ')')

/-- The percent escape `%XX` of one byte, with uppercase hex digits as
`encodeURIComponent` produces them. -/
def percentHex (b : Nat) : List Char :=
  ['%', hexDigitChar (b / 16), hexDigitChar (b % 16)]

/-- `encodeURIComponent` on a single character: unreserved characters
pass through, everything else becomes the percent escapes of its UTF-8
bytes. -/
def encodeURIComponentChar (c : Char) : List Char :=
  if percentUnreserved c then [c]
  else List.flatten ((utf8BytesOfCode c.toNat).map percentHex)

/-- The JavaScript builtin `encodeURIComponent`. -/
def encodeURIComponent (s : String) : String :=
  String.mk (List.flatten (s.data.map encodeURIComponentChar))

/-- Hexadecimal digit value of a character, or `none`. -/
def hexVal : Char → Option Nat
  | c =>
      if 48 ≤ c.toNat ∧ c.toNat ≤ 57 then some (c.toNat - 48)
      else if 65 ≤ c.toNat ∧ c.toNat ≤ 70 then some (c.toNat - 55)
      else if 97 ≤ c.toNat ∧ c.toNat ≤ 102 then some (c.toNat - 87)
      else none

/-- The JavaScript builtin `unescape`: scan the string, turning every
valid `%uXXXX` or `%XX` escape into the character with that code; a `%`
that does not start a valid escape stands for itself, and scanning
resumes at the character after it. -/
def unescapeList : List Char → List Char
  | [] => []
  | '%' :: 'u' :: c2 :: c3 :: c4 :: c5 :: rest =>
      match hexVal c2, hexVal c3, hexVal c4, hexVal c5 with
      | some h1, some h2, some h3, some h4 =>
          Char.ofNat (4096 * h1 + 256 * h2 + 16 * h3 + h4) :: unescapeList rest
      | _, _, _, _ => '%' :: unescapeList ('u' :: c2 :: c3 :: c4 :: c5 :: rest)
  | '%' :: c1 :: c2 :: rest =>
      match hexVal c1, hexVal c2 with
      | some h1, some h2 => Char.ofNat (16 * h1 + h2) :: unescapeList rest
      | _, _ => '%' :: unescapeList (c1 :: c2 :: rest)
  | c :: rest => c :: unescapeList rest

/-- The JavaScript builtin `unescape`. -/
def unescape (s : String) : String :=
  String.mk (unescapeList s.data)

/-- `Buffer.from(s)` with its default `utf8` encoding: the
concatenated UTF-8 bytes of the string's characters. -/
def bufferUtf8Bytes (s : String) : List Nat :=
  List.flatten (s.data.map (fun c => utf8BytesOfCode c.toNat))

/-- The base64 alphabet digit for a 6-bit value. -/
def base64Digit (n : Nat) : Char :=
  if n < 26 then Char.ofNat (65 + n)
  else if n < 52 then Char.ofNat (97 + (n - 26))
  else if n < 62 then Char.ofNat (48 + (n - 52))
  else if n = 62 then '+'
  else '/'

/-- Standard base64 of a byte sequence (`Buffer.toString('base64')`),
with `=` padding. -/
def base64Encode : List Nat → List Char
  | [] => []
  | [b1] => [base64Digit (b1 / 4), base64Digit ((b1 % 4) * 16), '=', '=']
  | [b1, b2] =>
      [base64Digit (b1 / 4), base64Digit ((b1 % 4) * 16 + b2 / 16),
       base64Digit ((b2 % 16) * 4), '=']
  | b1 :: b2 :: b3 :: rest =>
      base64Digit (b1 / 4) :: base64Digit ((b1 % 4) * 16 + b2 / 16) ::
      base64Digit ((b2 % 16) * 4 + b3 / 64) :: base64Digit (b3 % 64) ::
      base64Encode rest

/-- `keypairToAuth` from `src/main.js` (lines 17–19). -/
def keypairToAuth (key secret : String) : String :=
  "Basic " ++
    String.mk (base64Encode (bufferUtf8Bytes (unescape (encodeURIComponent (key ++ ":" ++ secret)))))

/-- The Authorization value as the specification describes it:
`Basic ` followed by the base64 of the UTF-8 bytes of `key:secret`. -/
def specBasicAuth (key secret : String) : String :=
  "Basic " ++ String.mk (base64Encode (bufferUtf8Bytes (key ++ ":" ++ secret)))

/-! ## Auxiliary quantities used by the proofs -/

/-- The increment one `(file, field)` step adds to a tally metric: when
the field resolves to a truthy value `u`, the metric grows by
`δ field (jsToString u)`, and otherwise by nothing. -/
def fileFieldDelta (δ : String → String → Nat) (file : JsValue) (field : String) : Nat :=
  match getObjectFieldValue file field with
  | Except.ok u => if truthy u then δ field (jsToString u) else 0
  | Except.error _ => 0

/-- Total metric increment contributed by one file over a field list. -/
def sumFieldDeltas (δ : String → String → Nat) (file : JsValue) : List String → Nat
  | [] => 0
  | field :: rest => fileFieldDelta δ file field + sumFieldDeltas δ file rest

/-- Total metric increment contributed by a file list. -/
def sumFileDeltas (δ : String → String → Nat) (fileFields : List String) :
    List JsValue → Nat
  | [] => 0
  | file :: rest => sumFieldDeltas δ file fileFields + sumFileDeltas δ fileFields rest

/-- Well-formedness of a tally table as built by the code: every field
entry carries a non-empty value table, and every stored count is at
least 1. -/
def tallyWF (t : Tally) : Prop :=
  ∀ p ∈ t, p.2 ≠ [] ∧ ∀ q ∈ p.2, 1 ≤ q.2

/-! ## Lemmas about the tally updates

The two metrics tracked through the tally loops are `tallyCount t f v`
(one value's count) and `fieldTotal t f` (one field's count sum); each
grows through `bumpField` by an explicit increment, which the fold
lemmas below sum over the processed files and fields. -/

theorem lookupCount_bumpValue (vals : ValueCounts) (v w : String) :
    lookupCount (bumpValue vals v) w =
      lookupCount vals w + (if v = w then 1 else 0) := by
  induction vals with
  | nil => simp [bumpValue, lookupCount]
  | cons p rest ih =>
      obtain ⟨x, c⟩ := p
      by_cases hxv : x = v
      · subst hxv
        simp only [bumpValue, lookupCount]
        split_ifs with hxw <;> omega
      · simp only [bumpValue, if_neg hxv, lookupCount]
        by_cases hxw : x = w
        · have hvw : ¬ v = w := fun h => hxv (hxw.trans h.symm)
          rw [if_pos hxw, if_pos hxw, if_neg hvw]
          omega
        · rw [if_neg hxw, if_neg hxw, ih]

theorem sumCounts_bumpValue (vals : ValueCounts) (v : String) :
    sumCounts (bumpValue vals v) = sumCounts vals + 1 := by
  induction vals with
  | nil => simp [bumpValue, sumCounts]
  | cons p rest ih =>
      obtain ⟨x, c⟩ := p
      simp only [bumpValue]
      split_ifs with hxv <;> simp only [sumCounts] <;> omega

theorem lookupField_bumpField (t : Tally) (f v g : String) :
    lookupField (bumpField t f v) g =
      if f = g then bumpValue (lookupField t f) v else lookupField t g := by
  induction t with
  | nil =>
      by_cases hfg : f = g <;> simp [bumpField, lookupField, bumpValue, hfg]
  | cons p rest ih =>
      obtain ⟨x, vals⟩ := p
      by_cases hxf : x = f
      · subst hxf
        by_cases hxg : x = g
        · subst hxg
          simp [bumpField, lookupField]
        · simp [bumpField, lookupField, hxg]
      · by_cases hxg : x = g
        · subst hxg
          have hfg : ¬ f = x := fun h => hxf h.symm
          simp [bumpField, lookupField, hxf, hfg]
        · simp [bumpField, lookupField, hxf, hxg, ih]

theorem tallyCount_bumpField (t : Tally) (g w f v : String) :
    tallyCount (bumpField t g w) f v =
      tallyCount t f v + (if g = f ∧ w = v then 1 else 0) := by
  unfold tallyCount
  rw [lookupField_bumpField]
  by_cases hgf : g = f
  · subst hgf
    simp [lookupCount_bumpValue]
  · simp [hgf]

theorem fieldTotal_bumpField (t : Tally) (g w f : String) :
    fieldTotal (bumpField t g w) f =
      fieldTotal t f + (if g = f then 1 else 0) := by
  unfold fieldTotal
  rw [lookupField_bumpField]
  by_cases hgf : g = f
  · subst hgf
    simp [sumCounts_bumpValue]
  · simp [hgf]

/-! ## The fold lemmas: one pass of the tally loops, for any metric
that grows through `bumpField` by a fixed per-pair increment -/

theorem tallyFileField_measure (μ : Tally → Nat) (δ : String → String → Nat)
    (hδ : ∀ t g w, μ (bumpField t g w) = μ t + δ g w)
    {counts t : Tally} {file : JsValue} {field : String}
    (h : tallyFileField counts file field = Except.ok t) :
    μ t = μ counts + fileFieldDelta δ file field := by
  unfold tallyFileField at h
  unfold fileFieldDelta
  cases hres : getObjectFieldValue file field with
  | error e => rw [hres] at h; cases h
  | ok u =>
      rw [hres] at h
      dsimp only at h ⊢
      by_cases htr : truthy u
      · rw [if_pos htr] at h
        cases h
        rw [if_pos htr, hδ]
      · rw [if_neg htr] at h
        cases h
        rw [if_neg htr]
        omega

theorem tallyFile_measure (μ : Tally → Nat) (δ : String → String → Nat)
    (hδ : ∀ t g w, μ (bumpField t g w) = μ t + δ g w)
    {file : JsValue} :
    ∀ (fileFields : List String) (counts t : Tally),
      tallyFile file counts fileFields = Except.ok t →
      μ t = μ counts + sumFieldDeltas δ file fileFields := by
  intro fileFields
  induction fileFields with
  | nil =>
      intro counts t h
      cases h
      simp [sumFieldDeltas]
  | cons field rest ih =>
      intro counts t h
      unfold tallyFile at h
      cases hstep : tallyFileField counts file field with
      | error e => rw [hstep] at h; cases h
      | ok counts2 =>
          rw [hstep] at h
          have h1 := tallyFileField_measure μ δ hδ hstep
          have h2 := ih counts2 t h
          simp [sumFieldDeltas]
          omega

theorem fileFieldDelta_count (file : JsValue) (f v field : String) :
    fileFieldDelta (fun g w => if g = f ∧ w = v then 1 else 0) file field =
      if field = f then (if fileContributes file f v then 1 else 0) else 0 := by
  by_cases hff : field = f
  · subst hff
    unfold fileFieldDelta fileContributes
    cases hres : getObjectFieldValue file field with
    | error e => simp
    | ok u =>
        by_cases htr : truthy u
        · by_cases hts : jsToString u = v <;> simp [htr, hts]
        · simp [htr]
  · unfold fileFieldDelta
    cases hres : getObjectFieldValue file field with
    | error e => simp [hff]
    | ok u => by_cases htr : truthy u <;> simp [htr, hff]

theorem fileFieldDelta_total (file : JsValue) (f field : String) :
    fileFieldDelta (fun g _ => if g = f then 1 else 0) file field =
      if field = f then (if truthyResolve file f then 1 else 0) else 0 := by
  by_cases hff : field = f
  · subst hff
    unfold fileFieldDelta truthyResolve
    cases hres : getObjectFieldValue file field with
    | error e => simp
    | ok u => by_cases htr : truthy u <;> simp [htr]
  · unfold fileFieldDelta
    cases hres : getObjectFieldValue file field with
    | error e => simp [hff]
    | ok u => by_cases htr : truthy u <;> simp [htr, hff]

theorem sumFieldDeltas_count (file : JsValue) (f v : String) (fields : List String) :
    sumFieldDeltas (fun g w => if g = f ∧ w = v then 1 else 0) file fields =
      if fileContributes file f v then countOcc f fields else 0 := by
  induction fields with
  | nil => simp [sumFieldDeltas, countOcc]
  | cons field rest ih =>
      simp only [sumFieldDeltas, fileFieldDelta_count, countOcc, ih]
      split_ifs <;> omega

theorem sumFieldDeltas_total (file : JsValue) (f : String) (fields : List String) :
    sumFieldDeltas (fun g _ => if g = f then 1 else 0) file fields =
      if truthyResolve file f then countOcc f fields else 0 := by
  induction fields with
  | nil => simp [sumFieldDeltas, countOcc]
  | cons field rest ih =>
      simp only [sumFieldDeltas, fileFieldDelta_total, countOcc, ih]
      split_ifs <;> omega

theorem sumFileDeltas_count (f v : String) (fields : List String) (files : List JsValue) :
    sumFileDeltas (fun g w => if g = f ∧ w = v then 1 else 0) fields files =
      countOcc f fields * countResolved f v files := by
  induction files with
  | nil => simp [sumFileDeltas, countResolved]
  | cons file rest ih =>
      simp only [sumFileDeltas, sumFieldDeltas_count, countResolved, ih, Nat.mul_add]
      split_ifs <;> omega

theorem sumFileDeltas_total (f : String) (fields : List String) (files : List JsValue) :
    sumFileDeltas (fun g _ => if g = f then 1 else 0) fields files =
      countOcc f fields * countTruthyFiles f files := by
  induction files with
  | nil => simp [sumFileDeltas, countTruthyFiles]
  | cons file rest ih =>
      simp only [sumFileDeltas, sumFieldDeltas_total, countTruthyFiles, ih, Nat.mul_add]
      split_ifs <;> omega

theorem tallyFiles_measure (μ : Tally → Nat) (δ : String → String → Nat)
    (hδ : ∀ t g w, μ (bumpField t g w) = μ t + δ g w)
    {fileFields : List String} :
    ∀ (files : List JsValue) (counts t : Tally),
      tallyFiles fileFields counts files = Except.ok t →
      μ t = μ counts + sumFileDeltas δ fileFields files := by
  intro files
  induction files with
  | nil =>
      intro counts t h
      cases h
      simp [sumFileDeltas]
  | cons file rest ih =>
      intro counts t h
      unfold tallyFiles at h
      cases hstep : tallyFile file counts fileFields with
      | error e => rw [hstep] at h; cases h
      | ok counts2 =>
          rw [hstep] at h
          have h1 := tallyFile_measure μ δ hδ fileFields counts counts2 hstep
          have h2 := ih counts2 t h
          simp [sumFileDeltas]
          omega

/-- The count recorded for `(f, v)` in the table built by the tally
engine: the number of occurrences of `f` in the requested field list
times the number of files resolving `f` to a truthy value printing as
`v`. -/
theorem filePropCounts_tallyCount {files : List JsValue} {fields : List String}
    {t : Tally} (h : filePropCounts files fields = Except.ok t) (f v : String) :
    tallyCount t f v = countOcc f fields * countResolved f v files := by
  have hm := tallyFiles_measure (fun t => tallyCount t f v)
    (fun g w => if g = f ∧ w = v then 1 else 0)
    (fun t g w => tallyCount_bumpField t g w f v) files [] t h
  rw [sumFileDeltas_count] at hm
  simpa [tallyCount, lookupField, lookupCount] using hm

/-- The sum of the counts recorded for field `f`: occurrences of `f` in
the request list times the number of files resolving `f` truthy. -/
theorem filePropCounts_fieldTotal {files : List JsValue} {fields : List String}
    {t : Tally} (h : filePropCounts files fields = Except.ok t) (f : String) :
    fieldTotal t f = countOcc f fields * countTruthyFiles f files := by
  have hm := tallyFiles_measure (fun t => fieldTotal t f)
    (fun g _ => if g = f then 1 else 0)
    (fun t g w => fieldTotal_bumpField t g w f) files [] t h
  rw [sumFileDeltas_total] at hm
  simpa [fieldTotal, lookupField, sumCounts] using hm

/-! ## Success of the tally loops depends only on which resolutions
throw, not on the accumulated table -/

theorem tallyFileField_isOk (counts : Tally) (file : JsValue) (field : String) :
    (tallyFileField counts file field).isOk = resolvesOk file field := by
  unfold tallyFileField resolvesOk
  cases hres : getObjectFieldValue file field with
  | error e => simp [Except.isOk, Except.toBool]
  | ok u => by_cases htr : truthy u <;> simp [htr, Except.isOk, Except.toBool]

theorem tallyFile_isOk (file : JsValue) :
    ∀ (fileFields : List String) (counts : Tally),
      (tallyFile file counts fileFields).isOk =
        fileFields.all (fun field => resolvesOk file field) := by
  intro fileFields
  induction fileFields with
  | nil => intro counts; simp [tallyFile, Except.isOk, Except.toBool]
  | cons field rest ih =>
      intro counts
      unfold tallyFile
      have hok := tallyFileField_isOk counts file field
      cases hstep : tallyFileField counts file field with
      | error e =>
          rw [hstep] at hok
          simp only [List.all_cons]
          rw [← hok]
          simp [Except.isOk, Except.toBool]
      | ok counts2 =>
          rw [hstep] at hok
          have hok2 : resolvesOk file field = true := hok.symm
          simp [List.all_cons, hok2, ih]

theorem tallyFiles_isOk (fileFields : List String) :
    ∀ (files : List JsValue) (counts : Tally),
      (tallyFiles fileFields counts files).isOk =
        files.all (fun file => fileFields.all (fun field => resolvesOk file field)) := by
  intro files
  induction files with
  | nil => intro counts; simp [tallyFiles, Except.isOk, Except.toBool]
  | cons file rest ih =>
      intro counts
      unfold tallyFiles
      have hok := tallyFile_isOk file fileFields counts
      cases hstep : tallyFile file counts fileFields with
      | error e =>
          rw [hstep] at hok
          simp only [List.all_cons]
          rw [← hok]
          simp [Except.isOk, Except.toBool]
      | ok counts2 =>
          rw [hstep] at hok
          have hok2 : (fileFields.all (fun field => resolvesOk file field)) = true := hok.symm
          simp [List.all_cons, hok2, ih]

theorem except_isOk_iff {α : Type} (x : Except Unit α) :
    x.isOk = true ↔ ∃ a, x = Except.ok a := by
  cases x <;> simp [Except.isOk, Except.toBool]

/-! ## Permutation invariance of the per-file counters -/

theorem countResolved_perm (f v : String) {files files2 : List JsValue}
    (hp : files.Perm files2) :
    countResolved f v files = countResolved f v files2 := by
  induction hp with
  | nil => rfl
  | cons x _ ih => simp [countResolved, ih]
  | swap x y l => simp [countResolved]; omega
  | trans _ _ ih1 ih2 => exact ih1.trans ih2

theorem countTruthyFiles_perm (f : String) {files files2 : List JsValue}
    (hp : files.Perm files2) :
    countTruthyFiles f files = countTruthyFiles f files2 := by
  induction hp with
  | nil => rfl
  | cons x _ ih => simp [countTruthyFiles, ih]
  | swap x y l => simp [countTruthyFiles]; omega
  | trans _ _ ih1 ih2 => exact ih1.trans ih2

theorem all_of_perm {α : Type} (p : α → Bool) {l l2 : List α} (hp : l.Perm l2) :
    l.all p = l2.all p := by
  induction hp with
  | nil => rfl
  | cons x _ ih => simp [List.all_cons, ih]
  | swap x y l => simp [List.all_cons, Bool.and_left_comm]
  | trans _ _ ih1 ih2 => exact ih1.trans ih2

/-! ## Structural invariants of the built table: non-empty value
tables, counts at least 1, unique creation of keys -/

theorem bumpValue_counts_pos (v : String) :
    ∀ vals : ValueCounts, (∀ q ∈ vals, 1 ≤ q.2) →
      ∀ q ∈ bumpValue vals v, 1 ≤ q.2 := by
  intro vals
  induction vals with
  | nil =>
      intro _ q hq
      simp [bumpValue] at hq
      subst hq
      exact Nat.le_refl 1
  | cons p rest ih =>
      obtain ⟨x, c⟩ := p
      intro h q hq
      simp only [bumpValue] at hq
      split_ifs at hq with hxv
      · rcases List.mem_cons.mp hq with h1 | h2
        · subst h1
          have := h (x, c) (List.mem_cons_self _ _)
          simp only at this
          simp only
          omega
        · exact h q (List.mem_cons_of_mem _ h2)
      · rcases List.mem_cons.mp hq with h1 | h2
        · subst h1
          exact h (x, c) (List.mem_cons_self _ _)
        · exact ih (fun r hr => h r (List.mem_cons_of_mem _ hr)) q h2

theorem bumpValue_ne_nil (vals : ValueCounts) (v : String) :
    bumpValue vals v ≠ [] := by
  cases vals with
  | nil => simp [bumpValue]
  | cons p rest =>
      obtain ⟨x, c⟩ := p
      simp only [bumpValue]
      split_ifs <;> simp

theorem bumpField_WF (f v : String) :
    ∀ t : Tally, tallyWF t → tallyWF (bumpField t f v) := by
  intro t
  induction t with
  | nil =>
      intro _ p hp
      simp [bumpField] at hp
      subst hp
      refine ⟨by simp, ?_⟩
      intro q hq
      simp at hq
      subst hq
      exact Nat.le_refl 1
  | cons p rest ih =>
      obtain ⟨x, vals⟩ := p
      intro h q hq
      simp only [bumpField] at hq
      split_ifs at hq with hxf
      · rcases List.mem_cons.mp hq with h1 | h2
        · subst h1
          have hx := h (x, vals) (List.mem_cons_self _ _)
          exact ⟨bumpValue_ne_nil _ _, bumpValue_counts_pos v vals hx.2⟩
        · exact h q (List.mem_cons_of_mem _ h2)
      · rcases List.mem_cons.mp hq with h1 | h2
        · subst h1
          exact h (x, vals) (List.mem_cons_self _ _)
        · exact ih (fun r hr => h r (List.mem_cons_of_mem _ hr)) q h2

theorem tallyFileField_WF {counts t : Tally} {file : JsValue} {field : String}
    (h : tallyFileField counts file field = Except.ok t)
    (hwf : tallyWF counts) : tallyWF t := by
  unfold tallyFileField at h
  cases hres : getObjectFieldValue file field with
  | error e => rw [hres] at h; cases h
  | ok u =>
      rw [hres] at h
      dsimp only at h
      by_cases htr : truthy u
      · rw [if_pos htr] at h
        cases h
        exact bumpField_WF _ _ _ hwf
      · rw [if_neg htr] at h
        cases h
        exact hwf

theorem tallyFile_WF {file : JsValue} :
    ∀ (fileFields : List String) (counts t : Tally),
      tallyFile file counts fileFields = Except.ok t →
      tallyWF counts → tallyWF t := by
  intro fileFields
  induction fileFields with
  | nil =>
      intro counts t h hwf
      cases h
      exact hwf
  | cons field rest ih =>
      intro counts t h hwf
      unfold tallyFile at h
      cases hstep : tallyFileField counts file field with
      | error e => rw [hstep] at h; cases h
      | ok counts2 =>
          rw [hstep] at h
          exact ih counts2 t h (tallyFileField_WF hstep hwf)

theorem tallyFiles_WF {fileFields : List String} :
    ∀ (files : List JsValue) (counts t : Tally),
      tallyFiles fileFields counts files = Except.ok t →
      tallyWF counts → tallyWF t := by
  intro files
  induction files with
  | nil =>
      intro counts t h hwf
      cases h
      exact hwf
  | cons file rest ih =>
      intro counts t h hwf
      unfold tallyFiles at h
      cases hstep : tallyFile file counts fileFields with
      | error e => rw [hstep] at h; cases h
      | ok counts2 =>
          rw [hstep] at h
          exact ih counts2 t h (tallyFile_WF fileFields counts counts2 hstep hwf)

theorem filePropCounts_WF {files : List JsValue} {fields : List String} {t : Tally}
    (h : filePropCounts files fields = Except.ok t) : tallyWF t := by
  refine tallyFiles_WF files [] t h ?_
  intro p hp
  cases hp

theorem hasField_false_lookup {g : String} :
    ∀ {t : Tally}, hasField t g = false → lookupField t g = [] := by
  intro t
  induction t with
  | nil => intro _; rfl
  | cons p rest ih =>
      obtain ⟨x, vals⟩ := p
      intro h
      by_cases hxg : x = g
      · simp [hasField, hxg] at h
      · simp only [hasField, if_neg hxg] at h
        simp only [lookupField, if_neg hxg]
        exact ih h

theorem hasField_mem {g : String} :
    ∀ {t : Tally}, hasField t g = true → (g, lookupField t g) ∈ t := by
  intro t
  induction t with
  | nil => intro h; simp [hasField] at h
  | cons p rest ih =>
      obtain ⟨x, vals⟩ := p
      intro h
      by_cases hxg : x = g
      · subst hxg
        simp [lookupField]
      · simp only [hasField, if_neg hxg] at h
        simp only [lookupField, if_neg hxg]
        exact List.mem_cons_of_mem _ (ih h)

theorem sumCounts_pos {vals : ValueCounts} (hne : vals ≠ [])
    (h : ∀ q ∈ vals, 1 ≤ q.2) : 1 ≤ sumCounts vals := by
  cases vals with
  | nil => cases hne rfl
  | cons q rest =>
      obtain ⟨x, c⟩ := q
      have hc := h (x, c) (List.mem_cons_self _ _)
      simp only [sumCounts]
      simp at hc
      omega

theorem countOcc_pos_iff (f : String) :
    ∀ fields : List String, 1 ≤ countOcc f fields ↔ f ∈ fields := by
  intro fields
  induction fields with
  | nil => simp [countOcc]
  | cons g rest ih =>
      by_cases hgf : g = f
      · simp [countOcc, hgf]
      · have hfg : ¬ f = g := fun hh => hgf hh.symm
        simp [countOcc, hgf, hfg, ih]

theorem countTruthyFiles_pos_iff (f : String) :
    ∀ files : List JsValue,
      1 ≤ countTruthyFiles f files ↔ ∃ file ∈ files, truthyResolve file f = true := by
  intro files
  induction files with
  | nil => simp [countTruthyFiles]
  | cons file rest ih =>
      by_cases h1 : truthyResolve file f = true
      · simp only [countTruthyFiles, if_pos h1]
        constructor
        · intro _
          exact ⟨file, List.mem_cons_self _ _, h1⟩
        · intro _
          omega
      · simp only [countTruthyFiles, if_neg h1, Nat.zero_add]
        rw [ih]
        constructor
        · rintro ⟨x, hx, htx⟩
          exact ⟨x, List.mem_cons_of_mem _ hx, htx⟩
        · rintro ⟨x, hx, htx⟩
          rcases List.mem_cons.mp hx with h2 | h2
          · subst h2
            exact absurd htx h1
          · exact ⟨x, h2, htx⟩

/-! ## Splitting a dotless field -/

theorem splitAux_no_dot :
    ∀ (l acc : List Char), '.' ∉ l → splitAux l acc = [acc.reverse ++ l] := by
  intro l
  induction l with
  | nil => intro acc _; simp [splitAux]
  | cons c rest ih =>
      intro acc hnd
      have hc : ¬ c = '.' := fun h => hnd (List.mem_cons.mpr (Or.inl h.symm))
      have hrest : '.' ∉ rest := fun h => hnd (List.mem_cons_of_mem _ h)
      simp only [splitAux, if_neg hc]
      rw [ih (c :: acc) hrest]
      simp

theorem jsSplitDot_no_dot {field : String} (h : '.' ∉ field.data) :
    jsSplitDot field = [field] := by
  unfold jsSplitDot
  rw [splitAux_no_dot _ _ h]
  rfl

/-! ## The ASCII round trip through `encodeURIComponent` and `unescape` -/

theorem hexVal_hexDigitChar : ∀ n, n < 16 → hexVal (hexDigitChar n) = some n := by decide

theorem hexDigitChar_ne_u : ∀ n, n < 16 → hexDigitChar n ≠ 'u' := by decide

theorem unescapeList_cons_ne (c : Char) (l : List Char) (h : c ≠ '%') :
    unescapeList (c :: l) = c :: unescapeList l := by
  simp [unescapeList, h]

theorem unescapeList_pct (d1 d2 : Char) (l : List Char) (a b : Nat)
    (h1 : hexVal d1 = some a) (h2 : hexVal d2 = some b) (hu : d1 ≠ 'u') :
    unescapeList ('%' :: d1 :: d2 :: l) = Char.ofNat (16 * a + b) :: unescapeList l := by
  simp [unescapeList, h1, h2, hu]

theorem percentUnreserved_ne_pct {c : Char} (h : percentUnreserved c = true) :
    c ≠ '%' := by
  intro hc
  rw [hc] at h
  exact absurd h (by decide)

theorem unescape_encode_char (c : Char) (l : List Char) (hc : c.toNat < 128) :
    unescapeList (encodeURIComponentChar c ++ l) = c :: unescapeList l := by
  unfold encodeURIComponentChar
  by_cases hur : percentUnreserved c
  · rw [if_pos hur]
    exact unescapeList_cons_ne c l (percentUnreserved_ne_pct hur)
  · rw [if_neg hur]
    have h128 : utf8BytesOfCode c.toNat = [c.toNat] := by
      unfold utf8BytesOfCode
      rw [if_pos hc]
    rw [h128]
    have hd1 : hexVal (hexDigitChar (c.toNat / 16)) = some (c.toNat / 16) :=
      hexVal_hexDigitChar _ (by omega)
    have hd2 : hexVal (hexDigitChar (c.toNat % 16)) = some (c.toNat % 16) :=
      hexVal_hexDigitChar _ (by omega)
    have hu : hexDigitChar (c.toNat / 16) ≠ 'u' := hexDigitChar_ne_u _ (by omega)
    show unescapeList ('%' :: hexDigitChar (c.toNat / 16) :: hexDigitChar (c.toNat % 16) :: l) =
      c :: unescapeList l
    rw [unescapeList_pct _ _ _ _ _ hd1 hd2 hu]
    congr 1
    rw [Nat.div_add_mod]
    exact Char.ofNat_toNat c

theorem unescape_encode_ascii :
    ∀ l : List Char, (∀ c ∈ l, c.toNat < 128) →
      unescapeList (List.flatten (l.map encodeURIComponentChar)) = l := by
  intro l
  induction l with
  | nil => intro _; rfl
  | cons c rest ih =>
      intro h
      simp only [List.map_cons, List.flatten_cons]
      rw [unescape_encode_char c _ (h c (List.mem_cons_self _ _))]
      rw [ih (fun x hx => h x (List.mem_cons_of_mem _ hx))]

/-! ## The join of the field query parameters -/

theorem amp_join_spec :
    ∀ (rest : List String) (f : String),
      "&" ++ joinAmp ((f :: rest).map fieldQueryPart) = specFieldParams (f :: rest) := by
  intro rest
  induction rest with
  | nil =>
      intro f
      simp [joinAmp, specFieldParams, fieldQueryPart, String.append_assoc]
      rw [← String.append_assoc]
      simp
  | cons g rest2 ih =>
      intro f
      rw [show specFieldParams (f :: g :: rest2) =
        "&field=files." ++ f ++ specFieldParams (g :: rest2) from rfl]
      rw [← ih g]
      simp [joinAmp, List.map_cons, fieldQueryPart, String.append_assoc]
      rw [← String.append_assoc]
      simp

/-! ## The URL of the search request for a non-empty field list -/

theorem cartQueryUrl_spec (host f : String) (rest : List String) :
    cartQueryUrl host (f :: rest) = specSearchUrl host (f :: rest) := by
  unfold cartQueryUrl specSearchUrl cartQueryFieldQuery
  rw [← amp_join_spec rest f]
  rw [show ("/search_elements/type=Experiment&" : String) =
    "/search_elements/type=Experiment" ++ "&" from by decide]
  rw [← String.append_assoc host "/search_elements/type=Experiment" "&"]
  rw [String.append_assoc (host ++ "/search_elements/type=Experiment") "&"
    (joinAmp ((f :: rest).map fieldQueryPart))]

/-! ## The ASCII-only behaviour of `keypairToAuth` -/

theorem unescape_encodeURIComponent_ascii (s : String)
    (h : ∀ c ∈ s.data, c.toNat < 128) :
    unescape (encodeURIComponent s) = s := by
  obtain ⟨d⟩ := s
  unfold unescape encodeURIComponent
  show String.mk (unescapeList (List.flatten (d.map encodeURIComponentChar))) = String.mk d
  rw [unescape_encode_ascii d h]

/-! ## Claim theorems -/

/-- Claim C1 (code_bug evidence): contrary to the specification (and to
the function's own doc comment, which promises "the value ... or
undefined"), the field path resolver does throw on a missing
intermediate segment.  On the file record `{}` and the dotted path
`"a.b"`, the reduce of line 36 reads `undefined['b']` and raises a
`TypeError` (modelled as `Except.error ()`), and the tally engine
applied to that file and field propagates the error instead of skipping
the file. -/
theorem c1_resolver_throws_on_missing_intermediate :
    getObjectFieldValue (JsValue.vObj []) "a.b" = Except.error () ∧
    tallyFile (JsValue.vObj []) [] ["a.b"] = Except.error () :=
  ⟨rfl, rfl⟩

/-- Claim C2 counterexample: with the absent (`undefined`) result the
search client produces for a non-OK HTTP response, the downstream tally
stage does NOT yield an empty tally table — reading `cartData['@graph']`
on `undefined` throws a `TypeError`, so the stage errors out. -/
theorem c2_counterexample :
    filePropCountStage (cartDataOf (cartQueryResult FetchOutcome.httpError))
      ["assay_title"] = Except.error () :=
  rfl

/-- Claim C2 (amended): a non-OK HTTP response or transport failure
makes the search client resolve to the absent result (`none`) instead
of propagating the failure; however, the downstream tally stage applied
to that absent result throws a `TypeError` (the promise chain rejects)
for every requested field list, producing no tally table at all — the
renderer then prints nothing only because the rejected promise skips
it. -/
theorem c2_absent_result_throws_downstream :
    cartQueryResult FetchOutcome.httpError = none ∧
    cartQueryResult FetchOutcome.transportError = none ∧
    ∀ fileFields : List String,
      filePropCountStage (cartDataOf none) fileFields = Except.error () :=
  ⟨rfl, rfl, fun _ => rfl⟩

/-- Claim C3 counterexample: when a field path is requested twice, each
file resolving it truthy is counted twice, so the sum of counts for
that field (2) differs from the number of file records resolving it to
a truthy value (1). -/
theorem c3_counterexample :
    filePropCounts [JsValue.vObj [("a", JsValue.vStr "x")]] ["a", "a"] =
      Except.ok [("a", [("x", 2)])] ∧
    fieldTotal [("a", [("x", 2)])] "a" = 2 ∧
    countTruthyFiles "a" [JsValue.vObj [("a", JsValue.vStr "x")]] = 1 ∧
    tallyCount [("a", [("x", 2)])] "a" "x" = 2 ∧
    countResolved "a" "x" [JsValue.vObj [("a", JsValue.vStr "x")]] = 1 :=
  ⟨rfl, rfl, rfl, rfl, rfl⟩

/-- Claim C3 (amended): in any tally table the engine produces, the
count stored for `(f, v)` equals the number of occurrences of `f` in
the requested field list times the number of file records resolving `f`
to a truthy value whose string coercion is `v`, and the sum of counts
for `f` equals that multiplicity times the number of file records
resolving `f` to a truthy value.  When every field path is requested
exactly once this is precisely the claimed invariant. -/
theorem c3_tally_counts {files : List JsValue} {fields : List String} {t : Tally}
    (h : filePropCounts files fields = Except.ok t) (f v : String) :
    tallyCount t f v = countOcc f fields * countResolved f v files ∧
    fieldTotal t f = countOcc f fields * countTruthyFiles f files :=
  ⟨filePropCounts_tallyCount h f v, filePropCounts_fieldTotal h f⟩

/-- Claim C3 witness: the amended theorem applied to a concrete run. -/
theorem c3_witness :
    filePropCounts
      [JsValue.vObj [("a", JsValue.vStr "x")], JsValue.vObj [("a", JsValue.vStr "y")],
       JsValue.vObj []] ["a"] = Except.ok [("a", [("x", 1), ("y", 1)])] ∧
    (tallyCount [("a", [("x", 1), ("y", 1)])] "a" "x" =
        countOcc "a" ["a"] *
          countResolved "a" "x"
            [JsValue.vObj [("a", JsValue.vStr "x")], JsValue.vObj [("a", JsValue.vStr "y")],
             JsValue.vObj []] ∧
      fieldTotal [("a", [("x", 1), ("y", 1)])] "a" =
        countOcc "a" ["a"] *
          countTruthyFiles "a"
            [JsValue.vObj [("a", JsValue.vStr "x")], JsValue.vObj [("a", JsValue.vStr "y")],
             JsValue.vObj []]) :=
  by
  have h : filePropCounts
      [JsValue.vObj [("a", JsValue.vStr "x")], JsValue.vObj [("a", JsValue.vStr "y")],
       JsValue.vObj []] ["a"] = Except.ok [("a", [("x", 1), ("y", 1)])] := rfl
  exact ⟨h, c3_tally_counts h "a" "x"⟩

/-- Claim C4: permuting the input file list preserves success of the
tally engine and leaves every per-(field, value) count and every
per-field total unchanged — only the enumeration order of the resulting
table may differ. -/
theorem c4_perm_invariance {files files2 : List JsValue} {fields : List String}
    {t : Tally} (hperm : files.Perm files2)
    (h : filePropCounts files fields = Except.ok t) :
    ∃ t2, filePropCounts files2 fields = Except.ok t2 ∧
      (∀ f v, tallyCount t2 f v = tallyCount t f v) ∧
      (∀ f, fieldTotal t2 f = fieldTotal t f) := by
  have h' : tallyFiles fields [] files = Except.ok t := h
  have hok2 : files.all (fun file => fields.all (fun field => resolvesOk file field)) = true := by
    rw [← tallyFiles_isOk fields files []]
    rw [h']
    rfl
  have hall2 : files2.all (fun file => fields.all (fun field => resolvesOk file field)) = true := by
    rw [← all_of_perm _ hperm]
    exact hok2
  have hok3 : (tallyFiles fields [] files2).isOk = true := by
    rw [tallyFiles_isOk]
    exact hall2
  obtain ⟨t2, ht2⟩ := (except_isOk_iff _).mp hok3
  have ht2' : filePropCounts files2 fields = Except.ok t2 := ht2
  refine ⟨t2, ht2', ?_, ?_⟩
  · intro f v
    rw [filePropCounts_tallyCount ht2' f v, filePropCounts_tallyCount h f v,
      countResolved_perm f v hperm]
  · intro f
    rw [filePropCounts_fieldTotal ht2' f, filePropCounts_fieldTotal h f,
      countTruthyFiles_perm f hperm]

/-- Claim C4 witness: swapping a two-file list yields a table with the
same counts. -/
theorem c4_witness :
    ([JsValue.vObj [("a", JsValue.vStr "x")], JsValue.vObj [("a", JsValue.vStr "y")]].Perm
      [JsValue.vObj [("a", JsValue.vStr "y")], JsValue.vObj [("a", JsValue.vStr "x")]]) ∧
    filePropCounts [JsValue.vObj [("a", JsValue.vStr "x")], JsValue.vObj [("a", JsValue.vStr "y")]]
      ["a"] = Except.ok [("a", [("x", 1), ("y", 1)])] ∧
    ∃ t2,
      filePropCounts
        [JsValue.vObj [("a", JsValue.vStr "y")], JsValue.vObj [("a", JsValue.vStr "x")]] ["a"] =
          Except.ok t2 ∧
      (∀ f v, tallyCount t2 f v = tallyCount [("a", [("x", 1), ("y", 1)])] f v) ∧
      (∀ f, fieldTotal t2 f = fieldTotal [("a", [("x", 1), ("y", 1)])] f) :=
  by
  have h : filePropCounts
      [JsValue.vObj [("a", JsValue.vStr "x")], JsValue.vObj [("a", JsValue.vStr "y")]] ["a"] =
        Except.ok [("a", [("x", 1), ("y", 1)])] := rfl
  exact ⟨List.Perm.swap (JsValue.vObj [("a", JsValue.vStr "y")])
      (JsValue.vObj [("a", JsValue.vStr "x")]) [],
    h,
    c4_perm_invariance
      (List.Perm.swap (JsValue.vObj [("a", JsValue.vStr "y")])
        (JsValue.vObj [("a", JsValue.vStr "x")]) [])
      h⟩

/-- Claim C5: for a field path containing no dot, the single-segment
fast path of `getObjectFieldValue` (direct property lookup, lines
33–35) returns exactly what the general segment-by-segment descent of
line 36 would return, on every record. -/
theorem c5_single_segment_fast_path {field : String} (h : '.' ∉ field.data)
    (object : JsValue) :
    getObjectFieldValue object field = getObjectFieldValueGeneral object field := by
  unfold getObjectFieldValue getObjectFieldValueGeneral
  rw [jsSplitDot_no_dot h]
  simp only [List.length_cons, List.length_nil, if_pos]
  cases hres : jsGet object field <;> simp [dottedReduce, hres]

/-- Claim C5 witness: fast path and general descent agree on a concrete
dotless path. -/
theorem c5_witness :
    ('.' ∉ ("restricted" : String).data) ∧
    getObjectFieldValue (JsValue.vObj [("restricted", JsValue.vBool true)]) "restricted" =
      getObjectFieldValueGeneral (JsValue.vObj [("restricted", JsValue.vBool true)])
        "restricted" :=
  ⟨by decide, c5_single_segment_fast_path (by decide) _⟩

/-- Claim C6: on the files `[{restricted: true}, {restricted: false},
{}]` with the single field path `restricted`, the tally engine yields
exactly the table `restricted ↦ ("true" ↦ 1)`: the truthy boolean is
coerced to the string `"true"` and counted once, while `false` and the
missing property contribute nothing. -/
theorem c6_restricted_example :
    filePropCounts
      [JsValue.vObj [("restricted", JsValue.vBool true)],
       JsValue.vObj [("restricted", JsValue.vBool false)],
       JsValue.vObj []] ["restricted"] =
      Except.ok [("restricted", [("true", 1)])] :=
  rfl

/-- Claim C7: on the files `[{a:{b:"x"}}, {a:{b:"x"}}, {a:{b:"y"}},
{a:{}}]` with field path `a.b`, the tally engine yields
`a.b ↦ ("x" ↦ 2, "y" ↦ 1)`; the fourth file resolves to absent and
contributes nothing. -/
theorem c7_nested_example :
    filePropCounts
      [JsValue.vObj [("a", JsValue.vObj [("b", JsValue.vStr "x")])],
       JsValue.vObj [("a", JsValue.vObj [("b", JsValue.vStr "x")])],
       JsValue.vObj [("a", JsValue.vObj [("b", JsValue.vStr "y")])],
       JsValue.vObj [("a", JsValue.vObj [])]] ["a.b"] =
      Except.ok [("a.b", [("x", 2), ("y", 1)])] :=
  rfl

/-- Claim C8 counterexample: with an empty field list the code's URL
contains a double ampersand (`type=Experiment&&field=files.restricted`),
while the URL the specification writes has a single one, so the two
differ. -/
theorem c8_counterexample :
    cartQueryUrl "https://enc.org" [] =
      "https://enc.org/search_elements/type=Experiment&&field=files.restricted&limit=all&filterresponse=off" ∧
    specSearchUrl "https://enc.org" [] =
      "https://enc.org/search_elements/type=Experiment&field=files.restricted&limit=all&filterresponse=off" ∧
    cartQueryUrl "https://enc.org" [] ≠ specSearchUrl "https://enc.org" [] :=
  ⟨by decide, by decide, by decide⟩

/-- Claim C8 (amended): for every NON-EMPTY list of field paths the
search client's POST request is exactly as specified — the URL
`{server}/search_elements/type=Experiment&field=files.f1&...&field=files.fn&field=files.restricted&limit=all&filterresponse=off`,
the `Accept`/`Content-Type` headers `application/json`, the given
Authorization value, and the body `JSON.stringify({"@id": experiments})`.
With an empty field list the code inserts a double ampersand instead. -/
theorem c8_request_nonempty_fields (experiments : List String) (f : String)
    (rest : List String) (host auth : String) :
    cartQueryRequest experiments (f :: rest) host auth =
      { url := specSearchUrl host (f :: rest)
        method := "POST"
        accept := "application/json"
        contentType := "application/json"
        authorization := auth
        body := cartQueryBody experiments } := by
  unfold cartQueryRequest
  rw [cartQueryUrl_spec host f rest]

/-- Claim C9 counterexample: for the non-ASCII key `é` the code
base64-encodes a double UTF-8 encoding (the `unescape`/`encodeURIComponent`
trick produces the UTF-8 bytes as characters, and `Buffer.from` UTF-8
encodes them again), so the result differs from `Basic ` plus the
base64 of the UTF-8 bytes of `key:secret`. -/
theorem c9_counterexample :
    keypairToAuth "é" "s" = "Basic w4PCqTpz" ∧
    specBasicAuth "é" "s" = "Basic w6k6cw==" ∧
    keypairToAuth "é" "s" ≠ specBasicAuth "é" "s" :=
  ⟨by decide, by decide, by decide⟩

/-- Claim C9 (amended): for key and secret consisting of ASCII
characters (code points below 128) the constructed Authorization value
equals `Basic ` followed by the base64 encoding of `key:secret`; for
non-ASCII characters the code instead base64-encodes a double UTF-8
encoding of the string. -/
theorem c9_auth_ascii (key secret : String)
    (hk : ∀ c ∈ key.data, c.toNat < 128)
    (hs : ∀ c ∈ secret.data, c.toNat < 128) :
    keypairToAuth key secret = specBasicAuth key secret := by
  have hall : ∀ c ∈ (key ++ ":" ++ secret).data, c.toNat < 128 := by
    intro c hcm
    rw [String.data_append, String.data_append] at hcm
    rcases List.mem_append.mp hcm with h1 | h2
    · rcases List.mem_append.mp h1 with h3 | h4
      · exact hk c h3
      · have hcolon : (":" : String).data = [':'] := rfl
        rw [hcolon] at h4
        simp at h4
        subst h4
        decide
    · exact hs c h2
  unfold keypairToAuth specBasicAuth
  rw [unescape_encodeURIComponent_ascii _ hall]

/-- Claim C9 witness: the amended theorem applied to a concrete ASCII
key and secret. -/
theorem c9_witness :
    (∀ c ∈ ("mykey" : String).data, c.toNat < 128) ∧
    (∀ c ∈ ("mysecret" : String).data, c.toNat < 128) ∧
    keypairToAuth "mykey" "mysecret" = specBasicAuth "mykey" "mysecret" :=
  ⟨by decide, by decide, c9_auth_ascii "mykey" "mysecret" (by decide) (by decide)⟩

/-- Claim C10: in any table the tally engine produces, every stored
count is at least 1, and a field path appears as an outer key exactly
when it was requested and at least one file record resolved it to a
truthy value — no entry is ever created with a zero count. -/
theorem c10_counts_positive_and_keys {files : List JsValue} {fields : List String}
    {t : Tally} (h : filePropCounts files fields = Except.ok t) :
    (∀ p ∈ t, ∀ q ∈ p.2, 1 ≤ q.2) ∧
    (∀ f, hasField t f = true ↔
      f ∈ fields ∧ ∃ file ∈ files, truthyResolve file f = true) := by
  have hwf := filePropCounts_WF h
  constructor
  · intro p hp q hq
    exact (hwf p hp).2 q hq
  · intro f
    constructor
    · intro hf
      have hmem := hasField_mem hf
      have hp := hwf _ hmem
      have hpos : 1 ≤ fieldTotal t f := sumCounts_pos hp.1 hp.2
      rw [filePropCounts_fieldTotal h f] at hpos
      have h1 : 1 ≤ countOcc f fields := by
        by_contra hno
        have hz : countOcc f fields = 0 := by omega
        rw [hz] at hpos
        simp at hpos
      have h2 : 1 ≤ countTruthyFiles f files := by
        by_contra hno
        have hz : countTruthyFiles f files = 0 := by omega
        rw [hz] at hpos
        simp at hpos
      exact ⟨(countOcc_pos_iff f fields).mp h1, (countTruthyFiles_pos_iff f files).mp h2⟩
    · rintro ⟨hf1, hf2⟩
      have h1 : 1 ≤ countOcc f fields := (countOcc_pos_iff f fields).mpr hf1
      have h2 : 1 ≤ countTruthyFiles f files := (countTruthyFiles_pos_iff f files).mpr hf2
      have hpos : 1 ≤ fieldTotal t f := by
        rw [filePropCounts_fieldTotal h f]
        simpa using Nat.mul_le_mul h1 h2
      by_contra hnf
      have hff : hasField t f = false := by
        cases hhf : hasField t f
        · rfl
        · exact absurd hhf hnf
      have hlk := hasField_false_lookup hff
      unfold fieldTotal at hpos
      rw [hlk] at hpos
      simp [sumCounts] at hpos

/-- Claim C10 witness: the invariants on a concrete run. -/
theorem c10_witness :
    filePropCounts [JsValue.vObj [("restricted", JsValue.vBool true)]] ["restricted"] =
      Except.ok [("restricted", [("true", 1)])] ∧
    ((∀ p ∈ ([("restricted", [("true", 1)])] : Tally), ∀ q ∈ p.2, 1 ≤ q.2) ∧
     (∀ f, hasField [("restricted", [("true", 1)])] f = true ↔
        f ∈ ["restricted"] ∧
          ∃ file ∈ [JsValue.vObj [("restricted", JsValue.vBool true)]],
            truthyResolve file f = true)) :=
  by
  have h : filePropCounts [JsValue.vObj [("restricted", JsValue.vBool true)]] ["restricted"] =
      Except.ok [("restricted", [("true", 1)])] := rfl
  exact ⟨h, c10_counts_positive_and_keys h⟩
